import Mathlib

set_option autoImplicit false

/-!
Verification of the card prediction/verification engine of this repository.

Message text is modelled as `List Char` (Unicode scalar values); multi-codepoint
emoji such as the suit symbols are two-element character sequences.  The pure
extractor functions are translated from `card_predictor.py`.  The prediction
engine itself (`should_predict` / `verify_prediction_from_edit` and friends) is
called from `handlers.py` but its definition is absent from the sources, so the
engine operations are modelled from the specification (each such definition is
marked `Modelled from the spec:`).
-/

/-- Variation selector 16, the second codepoint of each suit emoji. -/
def vs : Char := Char.ofNat 0xFE0F

def spadeCh : Char := Char.ofNat 0x2660
def heartCh : Char := Char.ofNat 0x2665
def diamondCh : Char := Char.ofNat 0x2666
def clubCh : Char := Char.ofNat 0x2663
/-- Base codepoint of the alternate heart glyph `❤️`. -/
def heartAltCh : Char := Char.ofNat 0x2764

/-- The canonical spade symbol `♠️`. -/
def spadeSym : List Char := [spadeCh, vs]
/-- The canonical heart symbol `♥️`. -/
def heartSym : List Char := [heartCh, vs]
/-- The canonical diamond symbol `♦️`. -/
def diamondSym : List Char := [diamondCh, vs]
/-- The canonical club symbol `♣️`. -/
def clubSym : List Char := [clubCh, vs]
/-- The alternate heart symbol `❤️`. -/
def heartAltSym : List Char := [heartAltCh, vs]

/-- The four canonical suit symbols, in the order the source iterates them. -/
def canonSyms : List (List Char) := [spadeSym, heartSym, diamondSym, clubSym]

/-- Constant `VALID_CARD_COMBINATIONS` from `card_predictor.py`. -/
def VALID_CARD_COMBINATIONS : List (List Char) :=
  [spadeSym ++ heartSym ++ diamondSym,
   spadeSym ++ heartSym ++ clubSym,
   spadeSym ++ diamondSym ++ clubSym,
   heartSym ++ diamondSym ++ clubSym]

/-- Does `l` start with the character sequence `pat`? -/
def startsWithSeq : List Char → List Char → Bool
  | _, [] => true
  | [], _ :: _ => false
  | c :: cs, d :: ds => c == d && startsWithSeq cs ds

/-- Does `l` contain `pat` as a contiguous subsequence (Python `pat in l`)? -/
def containsSeq : List Char → List Char → Bool
  | [], pat => pat.isEmpty
  | l@(_ :: rest), pat => startsWithSeq l pat || containsSeq rest pat

/-- Number of positions of `l` at which `pat` starts. -/
def countOcc : List Char → List Char → Nat
  | [], _ => 0
  | l@(_ :: rest), pat => (if startsWithSeq l pat then 1 else 0) + countOcc rest pat

/-- Integer value of a digit string (Python `int` of the matched digits). -/
def digitsToNat (ds : List Char) : Nat :=
  ds.foldl (fun a c => a * 10 + (c.toNat - 48)) 0

/-- Function `extract_game_number` from `card_predictor.py`: first match of the regular
expression `#[nN](\d+)`, returning the integer value of the digit group. -/
def extract_game_number : List Char → Option Nat
  | [] => none
  | c :: rest =>
    if c == '#' then
      match rest with
      | [] => none
      | d :: rest2 =>
        if (d == 'n' || d == 'N') && (match rest2 with
            | e :: _ => e.isDigit
            | [] => false) then
          some (digitsToNat (rest2.takeWhile (fun x => x.isDigit)))
        else extract_game_number rest
    else extract_game_number rest

/-- A tag of the form `#`, `n`/`N`, digit starts at the head of `t`. -/
def tagStart : List Char → Bool
  | c :: d :: e :: _ => c == '#' && (d == 'n' || d == 'N') && e.isDigit
  | _ => false

/-- Heart-glyph normalization: Python `content.replace("❤️", "♥️")`, replacing
every occurrence of the two-codepoint sequence `❤️` by `♥️` left to right. -/
def normalizeHearts : List Char → List Char
  | [] => []
  | [c] => [c]
  | c :: d :: rest =>
    if c == heartAltCh && d == vs then heartCh :: vs :: normalizeHearts rest
    else c :: normalizeHearts (d :: rest)

/-- Left-to-right scanner equivalent to `re.findall(r'\(([^)]+)\)', text)`:
collects the non-empty contents of each parenthesized group (from a `(` to the
next `)`), continuing after the closing parenthesis.  The state is `none`
outside a group and `some acc` inside a group with accumulated content `acc`. -/
def scanPar : List Char → Option (List Char) → List (List Char)
  | [], _ => []
  | c :: rest, none => if c == '(' then scanPar rest (some []) else scanPar rest none
  | c :: rest, some acc =>
    if c == ')' then
      if acc.isEmpty then scanPar rest none else acc :: scanPar rest none
    else scanPar rest (some (acc ++ [c]))

/-- The set of canonical suit symbols present in one group's content, after
heart normalization; represented canonically in the source's iteration order. -/
def sectionSymbols (content : List Char) : List (List Char) :=
  canonSyms.filter (fun s => containsSeq (normalizeHearts content) s)

/-- Function `extract_card_symbols_from_parentheses` from `card_predictor.py`: one
distinct-symbol section per parenthesized group, in left-to-right order. -/
def extract_card_symbols_from_parentheses (t : List Char) : List (List (List Char)) :=
  (scanPar t none).map sectionSymbols

/-- Function `has_pending_indicators` from `card_predictor.py`. -/
def has_pending_indicators (t : List Char) : Bool :=
  [[Char.ofNat 0x23F0], [Char.ofNat 0x25B6], [Char.ofNat 0x1F550],
   [Char.ofNat 0x27A1, vs]].any (fun ind => containsSeq t ind)

/-- Function `has_completion_indicators` from `card_predictor.py`. -/
def has_completion_indicators (t : List Char) : Bool :=
  [[Char.ofNat 0x2705], [Char.ofNat 0x1F530]].any (fun ind => containsSeq t ind)

/-- Function `has_three_different_cards` from `card_predictor.py`. -/
def has_three_different_cards (cards : List (List Char)) : Bool :=
  cards.dedup.length == 3

/-- Lexicographic comparison of character sequences by codepoint
(Python string `<=`). -/
def lexLe : List Char → List Char → Bool
  | [], _ => true
  | _ :: _, [] => false
  | a :: as_, b :: bs => if a == b then lexLe as_ bs else decide (a.toNat < b.toNat)

/-- Insertion of a symbol into a lexicographically sorted list. -/
def insertSorted (x : List Char) : List (List Char) → List (List Char)
  | [] => [x]
  | y :: ys => if lexLe x y then x :: y :: ys else y :: insertSorted x ys

/-- Python `sorted` on a list of symbol strings. -/
def sortSyms (l : List (List Char)) : List (List Char) :=
  l.foldr insertSorted []

/-- The loop of `get_card_combination` over `VALID_CARD_COMBINATIONS`: the
first combination whose character set equals the candidate's returns the
candidate itself; otherwise the scan continues. -/
def comboLoop : List (List Char) → List Char → List Char
  | [], c => c
  | v :: vs_, c =>
    if c.all (fun x => v.contains x) && v.all (fun x => c.contains x) then c
    else comboLoop vs_ c

/-- Function `get_card_combination` from `card_predictor.py`: for exactly 3 distinct
symbols, the sorted concatenation (checked against, but never rejected by,
`VALID_CARD_COMBINATIONS`); otherwise `None`. -/
def get_card_combination (cards : List (List Char)) : Option (List Char) :=
  let unique_cards := cards.dedup
  if unique_cards.length = 3 then
    some (comboLoop VALID_CARD_COMBINATIONS (sortSyms unique_cards).flatten)
  else none

/-- Modelled from the spec: `countSuitOccurrencesInFirstSection` (§4.1, absent
from the sources): total occurrences of the 4 canonical suit symbols in the
first parenthesized group, after heart normalization; 0 with no group. -/
def countSuitOccurrencesInFirstSection (t : List Char) : Nat :=
  match scanPar t none with
  | [] => 0
  | c :: _ => (canonSyms.map (fun s => countOcc (normalizeHearts c) s)).sum

/-- Text following the first completion marker, if any. -/
def afterFirstMarker : List Char → Option (List Char)
  | [] => none
  | c :: rest =>
    if c == Char.ofNat 0x2705 || c == Char.ofNat 0x1F530 then some rest
    else afterFirstMarker rest

/-- Modelled from the spec: `countSuitOccurrencesAfterFirstCompletionMarker`
(§4.1, absent from the sources): the same count restricted to the first
parenthesized group after the first completion marker; 0 when absent. -/
def countSuitOccurrencesAfterFirstCompletionMarker (t : List Char) : Nat :=
  match afterFirstMarker t with
  | none => 0
  | some s => countSuitOccurrencesInFirstSection s

/-- Status of a prediction. -/
inductive PredStatus
  | pending
  | correct
  | failed
deriving DecidableEq, Repr

/-- A prediction record, keyed externally by its target game. -/
structure Prediction where
  status : PredStatus
  sourceGame : Nat
  combination : List Char
  verificationOffset : Option Nat
deriving DecidableEq, Repr

/-- The prediction engine's mutable state (spec §4.2). -/
structure EngineState where
  predictions : List (Nat × Prediction)
  dedupe : List (List Char)
  outstandingSends : List Nat
deriving DecidableEq, Repr

/-- Outcome of a successful verification (spec §4.2). -/
structure VerificationOutcome where
  targetGame : Nat
  oldText : List Char
  newText : List Char
deriving DecidableEq, Repr

/-- Lookup in the prediction table (first entry with the given key). -/
def lookupPred (ps : List (Nat × Prediction)) (k : Nat) : Option Prediction :=
  (ps.find? (fun kv => kv.1 == k)).map (fun kv => kv.2)

/-- Map-semantics insertion: replaces any entry with the same key. -/
def setPred (ps : List (Nat × Prediction)) (k : Nat) (p : Prediction) :
    List (Nat × Prediction) :=
  (k, p) :: ps.filter (fun kv => kv.1 != k)

def isPending (p : Prediction) : Bool :=
  match p.status with
  | .pending => true
  | _ => false

def pendingAt (st : EngineState) (k : Nat) : Bool :=
  match lookupPred st.predictions k with
  | some p => isPending p
  | none => false

/-- Decimal rendering of a game number. -/
def natDigits (n : Nat) : List Char := Nat.toDigits 10 n

/-- The templated status text `🔵{numero} 🔵3K: statut :<glyph>` of
`PREDICTION_MESSAGE`, with the status glyph substituted. -/
def status_text (n : Nat) (glyph : List Char) : List Char :=
  [Char.ofNat 0x1F535] ++ natDigits n ++ [' ', Char.ofNat 0x1F535] ++
    ['3', 'K', ':', ' ', 's', 't', 'a', 't', 'u', 't', ' ', ':'] ++ glyph

/-- Template `PREDICTION_MESSAGE` from `card_predictor.py` instantiated at `n`
(status glyph `⏳`). -/
def prediction_message (n : Nat) : List Char :=
  status_text n [Char.ofNat 0x23F3]

/-- The fixed 4-entry success glyph table keyed by verification offset:
`0→✅0️⃣`, `1→✅1️⃣`, `2→✅2️⃣`, `3→✅3️⃣`. -/
def offsetGlyph (off : Nat) : List Char :=
  match off with
  | 0 => [Char.ofNat 0x2705, '0', vs, Char.ofNat 0x20E3]
  | 1 => [Char.ofNat 0x2705, '1', vs, Char.ofNat 0x20E3]
  | 2 => [Char.ofNat 0x2705, '2', vs, Char.ofNat 0x20E3]
  | 3 => [Char.ofNat 0x2705, '3', vs, Char.ofNat 0x20E3]
  | _ => []

/-- The fixed failure glyph `⭕⭕`. -/
def failGlyph : List Char := [Char.ofNat 0x2B55, Char.ofNat 0x2B55]

/-- Modelled from the spec: `evaluateForPrediction` (§4.2; `should_predict` is
called from `handlers.py` but absent from the sources).  Decision sequence:
game number, duplicate suppression, sections, first 3-distinct-symbol trigger,
dedupe fingerprint, emission of `(targetGame, combination)`. -/
def evaluateForPrediction (st : EngineState) (text : List Char) (_isEdited : Bool) :
    EngineState × Option (Nat × List Char) :=
  match extract_game_number text with
  | none => (st, none)
  | some sourceGame =>
    if pendingAt st (sourceGame + 1) then (st, none)
    else if (extract_card_symbols_from_parentheses text).isEmpty then (st, none)
    else
      match (extract_card_symbols_from_parentheses text).find? (fun s => s.length == 3) with
      | none => (st, none)
      | some sec =>
        if text ∈ st.dedupe then (st, none)
        else ({ st with dedupe := text :: st.dedupe },
              some (sourceGame + 1, (sortSyms sec).flatten))

/-- Modelled from the spec: `createPrediction` (§4.2, absent from the
sources): inserts a fresh pending prediction keyed by `target`. -/
def createPrediction (st : EngineState) (target source : Nat) (comb : List Char) :
    EngineState × Prediction :=
  let p : Prediction := ⟨.pending, source, comb, none⟩
  ({ st with predictions := setPred st.predictions target p }, p)

/-- The candidate record for a key: its table entry, or the defensive default
for a key present only in `outstandingSends`. -/
def getCand (st : EngineState) (k : Nat) : Prediction :=
  match lookupPred st.predictions k with
  | some p => p
  | none => ⟨.pending, k - 1, [], none⟩

/-- Modelled from the spec: the candidate keys of a verification scan —
pending predictions merged with outstanding sends lacking a table entry,
sorted by target game ascending (§4.2 steps 2–3). -/
def candidateKeys (st : EngineState) : List Nat :=
  List.insertionSort (· ≤ ·)
    (((st.predictions.filter (fun kv => isPending kv.2)).map (fun kv => kv.1) ++
      st.outstandingSends.filter (fun k => (lookupPred st.predictions k).isNone)).dedup)

def resolveCorrect (st : EngineState) (k off : Nat) : EngineState :=
  let p : Prediction :=
    { getCand st k with status := .correct, verificationOffset := some off }
  { st with predictions := setPred st.predictions k p }

def resolveFailed (st : EngineState) (k : Nat) : EngineState :=
  let p : Prediction := { getCand st k with status := .failed }
  { st with predictions := setPred st.predictions k p }

/-- Modelled from the spec: the ordered candidate scan of
`evaluateForVerification` (§4.2 step 4), stopping at the first candidate that
yields an outcome. -/
def scanCands (g : Nat) (text : List Char) (isEdited : Bool) (st : EngineState) :
    List Nat → EngineState × Option VerificationOutcome
  | [] => (st, none)
  | k :: ks =>
    if k ≤ g then
      if g - k ≤ 3 then
        if isEdited && has_completion_indicators text then
          if countSuitOccurrencesInFirstSection text = 3 then
            (resolveCorrect st k (g - k),
             some ⟨k, prediction_message k, status_text k (offsetGlyph (g - k))⟩)
          else scanCands g text isEdited st ks
        else scanCands g text isEdited st ks
      else
        (resolveFailed st k,
         some ⟨k, prediction_message k, status_text k failGlyph⟩)
    else
      scanCands g text isEdited st ks

/-- Modelled from the spec: `evaluateForVerification` (§4.2;
`verify_prediction_from_edit` is called from `handlers.py` but absent from the
sources). -/
def evaluateForVerification (st : EngineState) (text : List Char) (isEdited : Bool) :
    EngineState × Option VerificationOutcome :=
  match extract_game_number text with
  | none => (st, none)
  | some g => scanCands g text isEdited st (candidateKeys st)

/-- The prediction table holds at most one entry per target game. -/
def keysNodup (ps : List (Nat × Prediction)) : Prop :=
  (ps.map (fun kv => kv.1)).Nodup

instance (ps : List (Nat × Prediction)) : Decidable (keysNodup ps) := by
  unfold keysNodup; infer_instance

/-! ## Basic lemmas about the prediction table -/

theorem lookupPred_setPred_self (ps : List (Nat × Prediction)) (k : Nat) (p : Prediction) :
    lookupPred (setPred ps k p) k = some p := by
  simp [lookupPred, setPred, List.find?_cons]

theorem find?_key_filter (ps : List (Nat × Prediction)) (k j : Nat) (h : j ≠ k) :
    (ps.filter (fun kv => kv.1 != k)).find? (fun kv => kv.1 == j) =
      ps.find? (fun kv => kv.1 == j) := by
  induction ps with
  | nil => rfl
  | cons a t ih =>
    by_cases hk : a.1 = k
    · have h1 : (a.1 != k) = false := by simp [hk]
      have h2 : (a.1 == j) = false := by
        simp only [beq_eq_false_iff_ne]; omega
      simp [List.filter_cons, h1, List.find?_cons, h2, ih]
    · have h1 : (a.1 != k) = true := by simp [hk]
      by_cases hj : a.1 = j
      · have h2 : (a.1 == j) = true := by simp [hj]
        simp [List.filter_cons, h1, List.find?_cons, h2]
      · have h2 : (a.1 == j) = false := by simp [hj]
        simp [List.filter_cons, h1, List.find?_cons, h2, ih]

theorem lookupPred_setPred_ne (ps : List (Nat × Prediction)) (k j : Nat) (p : Prediction)
    (h : j ≠ k) : lookupPred (setPred ps k p) j = lookupPred ps j := by
  have h2 : (k == j) = false := by simp only [beq_eq_false_iff_ne]; omega
  simp [lookupPred, setPred, List.find?_cons, h2, find?_key_filter ps k j h]

theorem keysNodup_setPred (ps : List (Nat × Prediction)) (k : Nat) (p : Prediction)
    (h : keysNodup ps) : keysNodup (setPred ps k p) := by
  unfold keysNodup at *
  simp only [setPred, List.map_cons, List.nodup_cons]
  constructor
  · intro hmem
    obtain ⟨kv, hkv, hfst⟩ := List.mem_map.mp hmem
    have := List.of_mem_filter hkv
    simp only [bne_iff_ne, ne_eq] at this
    exact this hfst
  · exact h.sublist ((List.filter_sublist ps).map (fun kv => kv.1))

theorem lookupPred_eq_of_mem_nodup (ps : List (Nat × Prediction)) (kv : Nat × Prediction)
    (hmem : kv ∈ ps) (hnd : keysNodup ps) : lookupPred ps kv.1 = some kv.2 := by
  induction ps with
  | nil => simp at hmem
  | cons a t ih =>
    unfold keysNodup at hnd
    simp only [List.map_cons, List.nodup_cons] at hnd
    rcases List.mem_cons.mp hmem with h | h
    · subst h; simp [lookupPred, List.find?_cons]
    · have hne : a.1 ≠ kv.1 := by
        intro he
        exact hnd.1 (he ▸ List.mem_map.mpr ⟨kv, h, rfl⟩)
      have h2 : (a.1 == kv.1) = false := by simp [hne]
      simpa [lookupPred, List.find?_cons, h2] using ih h hnd.2

/-! ## The combination loop never rejects -/

theorem comboLoop_eq (l : List (List Char)) (c : List Char) : comboLoop l c = c := by
  induction l with
  | nil => rfl
  | cons v t ih => unfold comboLoop; split <;> simp [ih]

/-- Claim C10: for a card list with exactly 3 distinct symbols `get_card_combination`
returns the sorted concatenation of the distinct symbols regardless of
membership in `VALID_CARD_COMBINATIONS`; otherwise it returns `none`.  The
second conjunct accepts a combination outside `VALID_CARD_COMBINATIONS`. -/
theorem get_card_combination_spec (cards : List (List Char)) :
    get_card_combination cards =
      (if cards.dedup.length = 3 then some (sortSyms cards.dedup).flatten else none) ∧
    get_card_combination [spadeSym, heartSym, heartAltSym] =
      some (spadeSym ++ heartSym ++ heartAltSym) ∧
    (spadeSym ++ heartSym ++ heartAltSym) ∉ VALID_CARD_COMBINATIONS := by
  refine ⟨?_, by decide, by decide⟩
  unfold get_card_combination
  split <;> rename_i h <;> simp [comboLoop_eq, h]

/-! ## Parenthesized-group structure of the section scanner -/

theorem scanPar_skip_out (pre z : List Char) (h : ∀ c ∈ pre, c ≠ '(') :
    scanPar (pre ++ z) none = scanPar z none := by
  induction pre with
  | nil => rfl
  | cons c t ih =>
    have hc : (c == '(') = false := by simp [h c (List.mem_cons_self c t)]
    simp only [List.cons_append, scanPar, hc, Bool.false_eq_true, if_false]
    exact ih (fun d hd => h d (List.mem_cons_of_mem c hd))

theorem scanPar_inside (a : List Char) (rest : List Char) (acc : List Char)
    (h : ∀ c ∈ a, c ≠ ')') :
    scanPar (a ++ ')' :: rest) (some acc) =
      (if (acc ++ a).isEmpty then scanPar rest none else (acc ++ a) :: scanPar rest none) := by
  induction a generalizing acc with
  | nil => simp [scanPar]
  | cons c t ih =>
    have hc : (c == ')') = false := by simp [h c (List.mem_cons_self c t)]
    simp only [List.cons_append, scanPar, hc, Bool.false_eq_true, if_false, List.append_eq]
    rw [ih (acc ++ [c]) (fun d hd => h d (List.mem_cons_of_mem c hd))]
    simp

/-- Claim C7: one `CardSection` per non-nested parenthesized group, left to right,
each the set of canonical suit symbols present after heart normalization
(first conjunct: general group decomposition; second conjunct: the spec's
example `(♠️♥️♦️) … (♠️♠️)`). -/
theorem extract_card_sections_groups :
    (∀ pre a rest, (∀ c ∈ pre, c ≠ '(') → a ≠ [] → (∀ c ∈ a, c ≠ '(' ∧ c ≠ ')') →
      extract_card_symbols_from_parentheses (pre ++ '(' :: a ++ ')' :: rest) =
        sectionSymbols a :: extract_card_symbols_from_parentheses rest) ∧
    extract_card_symbols_from_parentheses
        (['x', ' ', '('] ++ spadeSym ++ heartSym ++ diamondSym ++ [')', ' ', '('] ++
          spadeSym ++ spadeSym ++ [')', ' ', 'y']) =
      [[spadeSym, heartSym, diamondSym], [spadeSym]] := by
  constructor
  · intro pre a rest hpre ha hno
    unfold extract_card_symbols_from_parentheses
    rw [show pre ++ '(' :: a ++ ')' :: rest = pre ++ (('(' :: (a ++ ')' :: rest))) by simp,
        scanPar_skip_out pre _ hpre]
    have hop : (('(' : Char) == '(') = true := by decide
    simp only [scanPar, hop, if_true]
    rw [scanPar_inside a rest [] (fun c hc => (hno c hc).2)]
    have : (([] : List Char) ++ a).isEmpty = false := by
      simp only [List.nil_append]
      cases a with
      | nil => exact absurd rfl ha
      | cons x xs => rfl
    simp [this, ha]
  · decide

theorem extract_card_sections_groups_witness :
    extract_card_symbols_from_parentheses (['z'] ++ '(' :: heartSym ++ ')' :: ['w']) =
      sectionSymbols heartSym :: extract_card_symbols_from_parentheses ['w'] :=
  extract_card_sections_groups.1 ['z'] heartSym ['w'] (by decide) (by decide) (by decide)

/-! ## Totality: absence values on pattern-free input -/

theorem scanPar_no_paren (t : List Char) (h : ∀ c ∈ t, c ≠ '(') :
    scanPar t none = [] := by
  have := scanPar_skip_out t [] h
  simpa using this

theorem eval_none_of_no_game (st : EngineState) (t : List Char) (e : Bool)
    (h : extract_game_number t = none) :
    evaluateForPrediction st t e = (st, none) ∧ evaluateForVerification st t e = (st, none) := by
  constructor <;> simp [evaluateForPrediction, evaluateForVerification, h]

/-- Claim C9: every extractor and engine decision function returns its absence /
zero / empty / false value on empty text, on text with no game tag, and on
text with no parentheses (totality holds by construction in this embedding:
all definitions are total functions). -/
theorem extractor_engine_totality :
    (extract_game_number [] = none ∧
     extract_card_symbols_from_parentheses [] = [] ∧
     has_pending_indicators [] = false ∧
     has_completion_indicators [] = false ∧
     countSuitOccurrencesInFirstSection [] = 0 ∧
     countSuitOccurrencesAfterFirstCompletionMarker [] = 0 ∧
     has_three_different_cards [] = false ∧
     get_card_combination [] = none) ∧
    (∀ st t e, extract_game_number t = none →
      evaluateForPrediction st t e = (st, none) ∧
      evaluateForVerification st t e = (st, none)) ∧
    (∀ t, (∀ c ∈ t, c ≠ '(') →
      extract_card_symbols_from_parentheses t = [] ∧
      countSuitOccurrencesInFirstSection t = 0) := by
  refine ⟨by decide, fun st t e h => eval_none_of_no_game st t e h, fun t h => ?_⟩
  have hs := scanPar_no_paren t h
  constructor
  · simp [extract_card_symbols_from_parentheses, hs]
  · simp [countSuitOccurrencesInFirstSection, hs]

theorem extractor_engine_totality_witness :
    (evaluateForPrediction ⟨[], [], []⟩ ['h', 'i'] true = (⟨[], [], []⟩, none) ∧
     evaluateForVerification ⟨[], [], []⟩ ['h', 'i'] true = (⟨[], [], []⟩, none)) ∧
    (extract_card_symbols_from_parentheses ['h', 'i'] = [] ∧
     countSuitOccurrencesInFirstSection ['h', 'i'] = 0) :=
  ⟨extractor_engine_totality.2.1 ⟨[], [], []⟩ ['h', 'i'] true (by decide),
   extractor_engine_totality.2.2 ['h', 'i'] (by decide)⟩

/-! ## First-match semantics of game-number extraction -/

theorem extract_tag (t : List Char) (h : tagStart t = true) :
    extract_game_number t =
      some (digitsToNat ((t.drop 2).takeWhile (fun c => c.isDigit))) := by
  match t with
  | c :: d :: e :: rest =>
    simp only [tagStart, Bool.and_eq_true, beq_iff_eq, Bool.or_eq_true] at h
    obtain ⟨⟨hc, hd⟩, he⟩ := h
    subst hc
    have hd' : (d == 'n' || d == 'N') = true := by
      rcases hd with h | h <;> simp [h]
    unfold extract_game_number
    simp [hd', he]

theorem extract_notag (c : Char) (rest : List Char) (h : tagStart (c :: rest) = false) :
    extract_game_number (c :: rest) = extract_game_number rest := by
  by_cases hc : c = '#'
  · subst hc
    match rest with
    | [] => rfl
    | [d] =>
      conv_lhs => unfold extract_game_number
      simp
    | d :: e :: r3 =>
      have hb : ((d == 'n' || d == 'N') && e.isDigit) = false := by
        simp only [tagStart] at h
        simpa using h
      have hbp : ¬((d = 'n' ∨ d = 'N') ∧ e.isDigit = true) := by
        simpa using hb
      conv_lhs => unfold extract_game_number
      simp [hbp]
  · have hc' : (c == '#') = false := by simp [hc]
    conv_lhs => unfold extract_game_number
    simp [hc']

theorem extract_some_iff (t : List Char) (v : Nat) :
    extract_game_number t = some v ↔
      ∃ i, tagStart (t.drop i) = true ∧ (∀ j, j < i → tagStart (t.drop j) = false) ∧
        v = digitsToNat (((t.drop i).drop 2).takeWhile (fun c => c.isDigit)) := by
  induction t with
  | nil => simp [extract_game_number, tagStart]
  | cons c rest ih =>
    by_cases h : tagStart (c :: rest) = true
    · rw [extract_tag _ h]
      constructor
      · intro he
        refine ⟨0, by simpa using h, fun j hj => absurd hj (Nat.not_lt_zero j), ?_⟩
        simpa using (Option.some_injective _ he).symm
      · rintro ⟨i, hi, hlt, hv⟩
        have hi0 : i = 0 := by
          by_contra h0
          have h00 := hlt 0 (Nat.pos_of_ne_zero h0)
          rw [List.drop_zero] at h00
          rw [h00] at h
          exact Bool.false_ne_true h
        subst hi0
        simp only [List.drop_zero] at hv
        rw [hv]
    · have hf : tagStart (c :: rest) = false := eq_false_of_ne_true h
      rw [extract_notag c rest hf, ih]
      constructor
      · rintro ⟨i, hi, hlt, hv⟩
        refine ⟨i + 1, by simpa using hi, ?_, by simpa using hv⟩
        intro j hj
        cases j with
        | zero => simpa using hf
        | succ j' => simpa using hlt j' (by omega)
      · rintro ⟨i, hi, hlt, hv⟩
        cases i with
        | zero =>
          rw [List.drop_zero] at hi
          rw [hi] at hf
          exact absurd hf (by simp)
        | succ i' =>
          exact ⟨i', by simpa using hi, fun j hj => by simpa using hlt (j + 1) (by omega),
            by simpa using hv⟩

theorem extract_none_iff (t : List Char) :
    extract_game_number t = none ↔ ∀ i, i < t.length → tagStart (t.drop i) = false := by
  induction t with
  | nil => simp [extract_game_number]
  | cons c rest ih =>
    by_cases h : tagStart (c :: rest) = true
    · rw [extract_tag _ h]
      constructor
      · intro habs; exact absurd habs (by simp)
      · intro hall
        have h0 := hall 0 (by simp)
        rw [List.drop_zero] at h0
        rw [h0] at h
        exact absurd h (by simp)
    · have hf : tagStart (c :: rest) = false := eq_false_of_ne_true h
      rw [extract_notag c rest hf, ih]
      constructor
      · intro hall i hi
        cases i with
        | zero => simpa using hf
        | succ i' => simpa using hall i' (by simp at hi; omega)
      · intro hall i hi
        have := hall (i + 1) (by simp; omega)
        simpa using this

/-- Claim C6: the function `extract_game_number` returns the integer value of the digits of the
first (leftmost) occurrence of a `#`,`n`/`N`,digits tag, and `none` when no
position starts such a tag; on tag-free text both evaluation operations
return no outcome and leave the state unchanged. -/
theorem extract_game_number_first_tag_spec :
    (∀ t v, extract_game_number t = some v ↔
      ∃ i, tagStart (t.drop i) = true ∧ (∀ j, j < i → tagStart (t.drop j) = false) ∧
        v = digitsToNat (((t.drop i).drop 2).takeWhile (fun c => c.isDigit))) ∧
    (∀ t, extract_game_number t = none ↔
      ∀ i, i < t.length → tagStart (t.drop i) = false) ∧
    (∀ st t e, (∀ i, i < t.length → tagStart (t.drop i) = false) →
      evaluateForPrediction st t e = (st, none) ∧
      evaluateForVerification st t e = (st, none)) :=
  ⟨extract_some_iff, extract_none_iff,
   fun st t e h => eval_none_of_no_game st t e ((extract_none_iff t).mpr h)⟩

theorem extract_game_number_first_tag_spec_witness :
    extract_game_number ['x', '#', 'N', '7', '4', 'a', '#', 'n', '9'] = some 74 ∧
    (evaluateForPrediction ⟨[], [], []⟩ ['q'] false = (⟨[], [], []⟩, none) ∧
     evaluateForVerification ⟨[], [], []⟩ ['q'] false = (⟨[], [], []⟩, none)) :=
  ⟨(extract_game_number_first_tag_spec.1 _ 74).mpr ⟨1, by decide, by decide, by decide⟩,
   extract_game_number_first_tag_spec.2.2 ⟨[], [], []⟩ ['q'] false (by decide)⟩

/-! ## Dedupe behaviour of the engine operations -/

theorem scanCands_keeps (g : Nat) (t : List Char) (e : Bool) :
    ∀ ks st, ((scanCands g t e st ks).1).dedupe = st.dedupe ∧
      ((scanCands g t e st ks).1).outstandingSends = st.outstandingSends := by
  intro ks
  induction ks with
  | nil => intro st; exact ⟨rfl, rfl⟩
  | cons k ks ih =>
    intro st
    unfold scanCands
    split
    · split
      · split
        · split
          · exact ⟨rfl, rfl⟩
          · exact ih st
        · exact ih st
      · exact ⟨rfl, rfl⟩
    · exact ih st

theorem evalVerif_keeps (st : EngineState) (t : List Char) (e : Bool) :
    ((evaluateForVerification st t e).1).dedupe = st.dedupe ∧
      ((evaluateForVerification st t e).1).outstandingSends = st.outstandingSends := by
  unfold evaluateForVerification
  split
  · exact ⟨rfl, rfl⟩
  · exact scanCands_keeps _ _ _ _ _

theorem evalPred_shape (st : EngineState) (t : List Char) (e : Bool) :
    (evaluateForPrediction st t e = (st, none) ∧
      (evaluateForPrediction st t e).1.dedupe = st.dedupe) ∨
    ((evaluateForPrediction st t e).1.dedupe = t :: st.dedupe ∧ t ∉ st.dedupe ∧
      (evaluateForPrediction st t e).1.predictions = st.predictions) := by
  unfold evaluateForPrediction
  split
  · exact Or.inl ⟨rfl, rfl⟩
  · split
    · exact Or.inl ⟨rfl, rfl⟩
    · split
      · exact Or.inl ⟨rfl, rfl⟩
      · split
        · exact Or.inl ⟨rfl, rfl⟩
        · split
          · exact Or.inl ⟨rfl, rfl⟩
          · rename_i hnot
            exact Or.inr ⟨rfl, hnot, rfl⟩

theorem evalPred_predictions (st : EngineState) (t : List Char) (e : Bool) :
    (evaluateForPrediction st t e).1.predictions = st.predictions := by
  rcases evalPred_shape st t e with ⟨h, _⟩ | ⟨_, _, h⟩
  · rw [h]
  · exact h

/-- Claim C5: a call of `evaluateForPrediction` that emits records the message text
in the dedupe set; any call on a text already in the dedupe set emits nothing;
and no engine operation ever removes a text from the dedupe set, so every
later identical call also emits nothing. -/
theorem evaluateForPrediction_dedupe_idempotent (st : EngineState) (t : List Char) (e : Bool) :
    (∀ st2 em, evaluateForPrediction st t e = (st2, some em) → t ∈ st2.dedupe) ∧
    (t ∈ st.dedupe → (evaluateForPrediction st t e).2 = none) ∧
    (∀ t2 e2, t ∈ st.dedupe → t ∈ ((evaluateForPrediction st t2 e2).1).dedupe) ∧
    (∀ t2 e2, t ∈ st.dedupe → t ∈ ((evaluateForVerification st t2 e2).1).dedupe) ∧
    (∀ a b c, t ∈ st.dedupe → t ∈ ((createPrediction st a b c).1).dedupe) := by
  refine ⟨?_, ?_, ?_, ?_, ?_⟩
  · intro st2 em h
    rcases evalPred_shape st t e with ⟨he, _⟩ | ⟨he, _, _⟩
    · rw [he] at h
      exact absurd (congrArg Prod.snd h) (by simp)
    · have : st2 = (evaluateForPrediction st t e).1 := by rw [h]
      rw [this, he]
      exact List.mem_cons_self t st.dedupe
  · intro hd
    rcases evalPred_shape st t e with ⟨he, _⟩ | ⟨_, hnot, _⟩
    · rw [he]
    · exact absurd hd hnot
  · intro t2 e2 hd
    rcases evalPred_shape st t2 e2 with ⟨_, he⟩ | ⟨he, _, _⟩
    · rw [he]; exact hd
    · rw [he]; exact List.mem_cons_of_mem t2 hd
  · intro t2 e2 hd
    rw [(evalVerif_keeps st t2 e2).1]
    exact hd
  · intro a b c hd
    exact hd

theorem evaluateForPrediction_dedupe_idempotent_witness :
    ['a'] ∈ (evaluateForPrediction ⟨[], [['a']], []⟩ ['a'] true).1.dedupe ∧
    (evaluateForPrediction ⟨[], [['a']], []⟩ ['a'] true).2 = none :=
  ⟨(evaluateForPrediction_dedupe_idempotent ⟨[], [['a']], []⟩ ['a'] true).2.2.1 ['a'] true
     (List.mem_cons_self ['a'] []),
   (evaluateForPrediction_dedupe_idempotent ⟨[], [['a']], []⟩ ['a'] true).2.1
     (List.mem_cons_self ['a'] [])⟩

/-! ## Candidate scan structure -/

theorem isPending_iff (p : Prediction) : isPending p = true ↔ p.status = .pending := by
  cases hp : p.status <;> simp [isPending, hp]

theorem resolveCorrect_lookup_self (st : EngineState) (k off : Nat) :
    lookupPred (resolveCorrect st k off).predictions k =
      some ⟨.correct, (getCand st k).sourceGame, (getCand st k).combination, some off⟩ := by
  simp only [resolveCorrect]
  exact lookupPred_setPred_self _ _ _

theorem resolveCorrect_lookup_ne (st : EngineState) (k off j : Nat) (h : j ≠ k) :
    lookupPred (resolveCorrect st k off).predictions j = lookupPred st.predictions j := by
  simp only [resolveCorrect]
  exact lookupPred_setPred_ne _ _ _ _ h

theorem resolveFailed_lookup_self (st : EngineState) (k : Nat) :
    lookupPred (resolveFailed st k).predictions k =
      some ⟨.failed, (getCand st k).sourceGame, (getCand st k).combination,
        (getCand st k).verificationOffset⟩ := by
  simp only [resolveFailed]
  exact lookupPred_setPred_self _ _ _

theorem resolveFailed_lookup_ne (st : EngineState) (k j : Nat) (h : j ≠ k) :
    lookupPred (resolveFailed st k).predictions j = lookupPred st.predictions j := by
  simp only [resolveFailed]
  exact lookupPred_setPred_ne _ _ _ _ h

theorem resolveCorrect_nodup (st : EngineState) (k off : Nat) (h : keysNodup st.predictions) :
    keysNodup (resolveCorrect st k off).predictions := by
  simp only [resolveCorrect]
  exact keysNodup_setPred _ _ _ h

theorem resolveFailed_nodup (st : EngineState) (k : Nat) (h : keysNodup st.predictions) :
    keysNodup (resolveFailed st k).predictions := by
  simp only [resolveFailed]
  exact keysNodup_setPred _ _ _ h

theorem scanCands_cases (g : Nat) (t : List Char) (e : Bool) :
    ∀ ks st, scanCands g t e st ks = (st, none) ∨
      ∃ k, k ∈ ks ∧ k ≤ g ∧
        ((scanCands g t e st ks =
            (resolveCorrect st k (g - k),
             some ⟨k, prediction_message k, status_text k (offsetGlyph (g - k))⟩) ∧
          g - k ≤ 3 ∧ countSuitOccurrencesInFirstSection t = 3 ∧
          (e && has_completion_indicators t) = true) ∨
         (scanCands g t e st ks =
            (resolveFailed st k, some ⟨k, prediction_message k, status_text k failGlyph⟩) ∧
          3 < g - k)) := by
  intro ks
  induction ks with
  | nil => intro st; left; rfl
  | cons k ks ih =>
    intro st
    unfold scanCands
    by_cases h1 : k ≤ g
    · rw [if_pos h1]
      by_cases h2 : g - k ≤ 3
      · rw [if_pos h2]
        by_cases h3 : (e && has_completion_indicators t) = true
        · rw [if_pos h3]
          by_cases h4 : countSuitOccurrencesInFirstSection t = 3
          · rw [if_pos h4]
            right
            exact ⟨k, List.mem_cons_self _ _, h1, Or.inl ⟨rfl, h2, h4, h3⟩⟩
          · rw [if_neg h4]
            rcases ih st with h | ⟨k', hk', hle, hc⟩
            · left; exact h
            · right; exact ⟨k', List.mem_cons_of_mem _ hk', hle, hc⟩
        · rw [if_neg h3]
          rcases ih st with h | ⟨k', hk', hle, hc⟩
          · left; exact h
          · right; exact ⟨k', List.mem_cons_of_mem _ hk', hle, hc⟩
      · rw [if_neg h2]
        right
        exact ⟨k, List.mem_cons_self _ _, h1, Or.inr ⟨rfl, by omega⟩⟩
    · rw [if_neg h1]
      rcases ih st with h | ⟨k', hk', hle, hc⟩
      · left; exact h
      · right; exact ⟨k', List.mem_cons_of_mem _ hk', hle, hc⟩

theorem candidateKeys_sorted (st : EngineState) :
    List.Sorted (· ≤ ·) (candidateKeys st) :=
  List.sorted_insertionSort _ _

theorem mem_candidateKeys_of_pending (st : EngineState) (T : Nat) (p : Prediction)
    (h : lookupPred st.predictions T = some p) (hp : isPending p = true) :
    T ∈ candidateKeys st := by
  unfold candidateKeys
  rw [List.Perm.mem_iff (List.perm_insertionSort _ _), List.mem_dedup]
  apply List.mem_append_left
  unfold lookupPred at h
  obtain ⟨kv, hfind⟩ : ∃ kv, st.predictions.find? (fun kv => kv.1 == T) = some kv := by
    cases hf : st.predictions.find? (fun kv => kv.1 == T) with
    | none => rw [hf] at h; exact absurd h (by simp)
    | some kv => exact ⟨kv, rfl⟩
  rw [hfind] at h
  have hsnd : kv.2 = p := by simpa using h
  have hmem := List.mem_of_find?_eq_some hfind
  have hkey : kv.1 = T := by simpa using List.find?_some hfind
  exact List.mem_map.mpr ⟨kv, List.mem_filter.mpr ⟨hmem, by rw [hsnd]; exact hp⟩, hkey⟩

theorem cand_pending_of_nodup (st : EngineState) (k : Nat)
    (hnd : keysNodup st.predictions) (h : k ∈ candidateKeys st) :
    lookupPred st.predictions k = none ∨
      ∃ p, lookupPred st.predictions k = some p ∧ isPending p = true := by
  unfold candidateKeys at h
  rw [List.Perm.mem_iff (List.perm_insertionSort _ _), List.mem_dedup] at h
  rcases List.mem_append.mp h with h | h
  · obtain ⟨kv, hkv, hfst⟩ := List.mem_map.mp h
    have hm := List.mem_filter.mp hkv
    right
    refine ⟨kv.2, ?_, hm.2⟩
    have hlook := lookupPred_eq_of_mem_nodup st.predictions kv hm.1 hnd
    rw [hfst] at hlook
    exact hlook
  · have hm := List.mem_filter.mp h
    left
    simpa [Option.isNone_iff_eq_none] using hm.2

theorem sorted_head_of_min (l : List Nat) (hs : List.Sorted (· ≤ ·) l) (T : Nat)
    (hT : T ∈ l) (hmin : ∀ k ∈ l, T ≤ k) : ∃ ys, l = T :: ys := by
  cases l with
  | nil => simp at hT
  | cons h tl =>
    rcases List.mem_cons.mp hT with he | he
    · exact ⟨tl, by rw [he]⟩
    · have h1 : h ≤ T := (List.sorted_cons.mp hs).1 T he
      have h2 : T ≤ h := hmin h (List.mem_cons_self h tl)
      exact ⟨tl, by rw [le_antisymm h1 h2]⟩

/-! ## C3: uniqueness per target game and duplicate suppression -/

/-- Claim C3: the engine state keeps at most one prediction per target game (key
nodup is preserved by every engine operation), and while a pending prediction
for `N` exists, any `evaluateForPrediction` call whose target would be `N`
returns no emission and leaves the whole state unchanged, whatever the text. -/
theorem prediction_unique_per_target :
    (∀ st t e, keysNodup st.predictions →
       keysNodup ((evaluateForPrediction st t e).1.predictions) ∧
       keysNodup ((evaluateForVerification st t e).1.predictions) ∧
       ∀ a b c, keysNodup ((createPrediction st a b c).1.predictions)) ∧
    (∀ st t e N p s, lookupPred st.predictions N = some p → p.status = .pending →
       extract_game_number t = some s → N = s + 1 →
       evaluateForPrediction st t e = (st, none)) := by
  constructor
  · intro st t e hnd
    refine ⟨by rw [evalPred_predictions]; exact hnd, ?_, ?_⟩
    · cases hg : extract_game_number t with
      | none => simpa [evaluateForVerification, hg] using hnd
      | some g =>
        have heval : evaluateForVerification st t e = scanCands g t e st (candidateKeys st) := by
          simp [evaluateForVerification, hg]
        rw [heval]
        rcases scanCands_cases g t e (candidateKeys st) st with hsc | ⟨k, _, _, hres⟩
        · rw [hsc]; exact hnd
        · rcases hres with ⟨heq, _⟩ | ⟨heq, _⟩
          · rw [heq]; exact resolveCorrect_nodup st k _ hnd
          · rw [heq]; exact resolveFailed_nodup st k hnd
    · intro a b c
      simp only [createPrediction]
      exact keysNodup_setPred _ _ _ hnd
  · intro st t e N p s hN hp hg hNs
    unfold evaluateForPrediction
    simp only [hg]
    have hpend : pendingAt st (s + 1) = true := by
      unfold pendingAt
      rw [← hNs, hN]
      exact (isPending_iff p).mpr hp
    rw [if_pos hpend]

theorem prediction_unique_per_target_witness :
    evaluateForPrediction
        ⟨[(101, ⟨.pending, 100, [], none⟩)], [], []⟩
        (['#', 'n', '1', '0', '0', ' ', '('] ++ spadeSym ++ heartSym ++ diamondSym ++ [')'])
        true =
      (⟨[(101, ⟨.pending, 100, [], none⟩)], [], []⟩, none) :=
  prediction_unique_per_target.2
    ⟨[(101, ⟨.pending, 100, [], none⟩)], [], []⟩
    (['#', 'n', '1', '0', '0', ' ', '('] ++ spadeSym ++ heartSym ++ diamondSym ++ [')'])
    true 101 ⟨.pending, 100, [], none⟩ 100 (by decide) rfl (by decide) rfl

/-! ## C4: monotone prediction status -/

/-- Claim C4: prediction status is monotone.  `evaluateForPrediction` never touches
the prediction table; once a prediction for `N` is non-pending,
`evaluateForVerification` on any text leaves its record unchanged and never
emits an outcome for `N`; and whenever a verification call changes the record
at `N`, the old record was pending and the new one is correct or failed. -/
theorem prediction_status_monotone (st : EngineState) (t : List Char) (e : Bool)
    (N : Nat) (p : Prediction)
    (hnd : keysNodup st.predictions)
    (hN : lookupPred st.predictions N = some p) :
    ((evaluateForPrediction st t e).1.predictions = st.predictions) ∧
    (p.status ≠ .pending →
      lookupPred ((evaluateForVerification st t e).1).predictions N = some p ∧
      ∀ out, (evaluateForVerification st t e).2 = some out → out.targetGame ≠ N) ∧
    (∀ q, lookupPred ((evaluateForVerification st t e).1).predictions N = some q → q ≠ p →
      p.status = .pending ∧ (q.status = .correct ∨ q.status = .failed)) := by
  refine ⟨evalPred_predictions st t e, ?_⟩
  cases hg : extract_game_number t with
  | none =>
    have heval : evaluateForVerification st t e = (st, none) := by
      simp [evaluateForVerification, hg]
    rw [heval]
    refine ⟨fun _ => ⟨hN, by simp⟩, fun q hq hqp => ?_⟩
    rw [hN] at hq
    exact absurd (Option.some_injective _ hq).symm hqp
  | some g =>
    have heval : evaluateForVerification st t e = scanCands g t e st (candidateKeys st) := by
      simp [evaluateForVerification, hg]
    rw [heval]
    rcases scanCands_cases g t e (candidateKeys st) st with hsc | ⟨k, hkmem, _, hres⟩
    · rw [hsc]
      refine ⟨fun _ => ⟨hN, by simp⟩, fun q hq hqp => ?_⟩
      rw [hN] at hq
      exact absurd (Option.some_injective _ hq).symm hqp
    · have hkinfo := cand_pending_of_nodup st k hnd hkmem
      have hkpend : k = N → p.status = .pending := by
        intro hkN
        subst hkN
        rcases hkinfo with hnone | ⟨p', hp', hpend⟩
        · rw [hN] at hnone; exact absurd hnone (by simp)
        · rw [hN] at hp'
          rw [← Option.some_injective _ hp'] at hpend
          exact (isPending_iff p).mp hpend
      rcases hres with ⟨heq, _, _, _⟩ | ⟨heq, _⟩
      · rw [heq]
        constructor
        · intro hnp
          have hkN : k ≠ N := fun hkN => hnp (hkpend hkN)
          refine ⟨?_, ?_⟩
          · rw [resolveCorrect_lookup_ne st k _ N (Ne.symm hkN)]
            exact hN
          · intro out hout
            have : out = ⟨k, prediction_message k, status_text k (offsetGlyph (g - k))⟩ :=
              (Option.some_injective _ hout).symm
            rw [this]
            exact hkN
        · intro q hq hqp
          by_cases hkN : k = N
          · subst hkN
            refine ⟨hkpend rfl, ?_⟩
            rw [resolveCorrect_lookup_self] at hq
            rw [← Option.some_injective _ hq]
            exact Or.inl rfl
          · rw [resolveCorrect_lookup_ne st k _ N (Ne.symm hkN), hN] at hq
            exact absurd (Option.some_injective _ hq).symm hqp
      · rw [heq]
        constructor
        · intro hnp
          have hkN : k ≠ N := fun hkN => hnp (hkpend hkN)
          refine ⟨?_, ?_⟩
          · rw [resolveFailed_lookup_ne st k N (Ne.symm hkN)]
            exact hN
          · intro out hout
            have : out = ⟨k, prediction_message k, status_text k failGlyph⟩ :=
              (Option.some_injective _ hout).symm
            rw [this]
            exact hkN
        · intro q hq hqp
          by_cases hkN : k = N
          · subst hkN
            refine ⟨hkpend rfl, ?_⟩
            rw [resolveFailed_lookup_self] at hq
            rw [← Option.some_injective _ hq]
            exact Or.inr rfl
          · rw [resolveFailed_lookup_ne st k N (Ne.symm hkN), hN] at hq
            exact absurd (Option.some_injective _ hq).symm hqp

theorem prediction_status_monotone_witness :
    lookupPred ((evaluateForVerification
        ⟨[(90, ⟨.correct, 89, [], some 0⟩)], [], []⟩
        (['#', 'n', '9', '9'] ++ [Char.ofNat 0x2705]) true).1).predictions 90 =
      some ⟨.correct, 89, [], some 0⟩ :=
  ((prediction_status_monotone ⟨[(90, ⟨.correct, 89, [], some 0⟩)], [], []⟩
      (['#', 'n', '9', '9'] ++ [Char.ofNat 0x2705]) true 90 ⟨.correct, 89, [], some 0⟩
      (by decide) (by decide)).2.1 (by decide)).1

/-! ## C1: in-window verification success -/

/-- Claim C1: for the first pending candidate `T` (scan order is ascending target
game, so `T` least among candidates) and an edited message with a completion
marker, game number `g` with `0 ≤ g - T ≤ 3`, and first-section total suit
count exactly 3, verification marks `T` correct with
`verificationOffset = g - T`, returns the outcome whose new text carries the
glyph-table entry for the offset, and changes no other prediction. -/
theorem evaluateForVerification_marks_correct_in_window
    (st : EngineState) (t : List Char) (g T : Nat) (p : Prediction)
    (hg : extract_game_number t = some g)
    (hT : lookupPred st.predictions T = some p) (hp : p.status = .pending)
    (hmark : has_completion_indicators t = true)
    (h1 : T ≤ g) (h2 : g ≤ T + 3)
    (hcount : countSuitOccurrencesInFirstSection t = 3)
    (hmin : ∀ k ∈ candidateKeys st, T ≤ k) :
    evaluateForVerification st t true =
      (resolveCorrect st T (g - T),
       some ⟨T, prediction_message T, status_text T (offsetGlyph (g - T))⟩) ∧
    lookupPred ((evaluateForVerification st t true).1).predictions T =
      some ⟨.correct, p.sourceGame, p.combination, some (g - T)⟩ ∧
    (∀ k, k ≠ T →
      lookupPred ((evaluateForVerification st t true).1).predictions k =
        lookupPred st.predictions k) := by
  have hpend := (isPending_iff p).mpr hp
  have hTmem := mem_candidateKeys_of_pending st T p hT hpend
  obtain ⟨ys, hys⟩ := sorted_head_of_min _ (candidateKeys_sorted st) T hTmem hmin
  have heval : evaluateForVerification st t true = scanCands g t true st (candidateKeys st) := by
    simp [evaluateForVerification, hg]
  have hscan : scanCands g t true st (T :: ys) =
      (resolveCorrect st T (g - T),
       some ⟨T, prediction_message T, status_text T (offsetGlyph (g - T))⟩) := by
    unfold scanCands
    rw [if_pos h1, if_pos (by omega : g - T ≤ 3),
        if_pos (by simp [hmark] : (true && has_completion_indicators t) = true),
        if_pos hcount]
  have hmain : evaluateForVerification st t true =
      (resolveCorrect st T (g - T),
       some ⟨T, prediction_message T, status_text T (offsetGlyph (g - T))⟩) := by
    rw [heval, hys, hscan]
  refine ⟨hmain, ?_, ?_⟩
  · rw [hmain]
    rw [resolveCorrect_lookup_self]
    have hgc : getCand st T = p := by unfold getCand; rw [hT]
    rw [hgc]
  · intro k hk
    rw [hmain]
    exact resolveCorrect_lookup_ne st T _ k hk

theorem evaluateForVerification_marks_correct_in_window_witness :
    lookupPred ((evaluateForVerification
        ⟨[(101, ⟨.pending, 100, spadeSym ++ heartSym ++ diamondSym, none⟩)], [], []⟩
        (['#', 'n', '1', '0', '1', ' ', Char.ofNat 0x2705, ' ', '('] ++
          spadeSym ++ heartSym ++ diamondSym ++ [')'])
        true).1).predictions 101 =
      some ⟨.correct, 100, spadeSym ++ heartSym ++ diamondSym, some 0⟩ :=
  (evaluateForVerification_marks_correct_in_window
      ⟨[(101, ⟨.pending, 100, spadeSym ++ heartSym ++ diamondSym, none⟩)], [], []⟩
      (['#', 'n', '1', '0', '1', ' ', Char.ofNat 0x2705, ' ', '('] ++
        spadeSym ++ heartSym ++ diamondSym ++ [')'])
      101 101 ⟨.pending, 100, spadeSym ++ heartSym ++ diamondSym, none⟩
      (by decide) (by decide) rfl (by decide) (by decide) (by decide) (by decide)
      (by decide)).2.1

/-! ## C2: skipped window candidates stay pending; offset ≥ 4 fails -/

theorem scanCands_no_touch (g : Nat) (t : List Char) (e : Bool) (T : Nat)
    (hcount : countSuitOccurrencesInFirstSection t ≠ 3) (hwin : g < T + 4) :
    ∀ ks st,
      lookupPred ((scanCands g t e st ks).1).predictions T = lookupPred st.predictions T ∧
      ∀ out, (scanCands g t e st ks).2 = some out → out.targetGame ≠ T := by
  intro ks
  induction ks with
  | nil => intro st; exact ⟨rfl, by intro out hout; simp [scanCands] at hout⟩
  | cons k ks ih =>
    intro st
    unfold scanCands
    by_cases h1 : k ≤ g
    · rw [if_pos h1]
      by_cases h2 : g - k ≤ 3
      · rw [if_pos h2]
        by_cases h3 : (e && has_completion_indicators t) = true
        · rw [if_pos h3, if_neg hcount]
          exact ih st
        · rw [if_neg h3]; exact ih st
      · rw [if_neg h2]
        have hkT : k ≠ T := by omega
        refine ⟨resolveFailed_lookup_ne st k T (Ne.symm hkT), ?_⟩
        intro out hout
        have hoeq : out = ⟨k, prediction_message k, status_text k failGlyph⟩ :=
          (Option.some_injective _ hout).symm
        rw [hoeq]
        exact hkT
    · rw [if_neg h1]; exact ih st

/-- Claim C2: a candidate in the window `0 ≤ g - T ≤ 3` whose first-section total
suit count is not 3 is left pending (its record unchanged, no outcome for it)
while the scan continues; once a message with `g - T ≥ 4` arrives, the first
such pending candidate is marked failed and the outcome's new text uses the
failure glyph `⭕⭕`. -/
theorem evaluateForVerification_skip_and_fail :
    (∀ st t e g T p, extract_game_number t = some g →
       lookupPred st.predictions T = some p →
       T ≤ g → g ≤ T + 3 → countSuitOccurrencesInFirstSection t ≠ 3 →
       lookupPred ((evaluateForVerification st t e).1).predictions T = some p ∧
       ∀ out, (evaluateForVerification st t e).2 = some out → out.targetGame ≠ T) ∧
    (∀ st t e g T p, extract_game_number t = some g →
       lookupPred st.predictions T = some p → p.status = .pending →
       T + 4 ≤ g → (∀ k ∈ candidateKeys st, T ≤ k) →
       evaluateForVerification st t e =
         (resolveFailed st T,
          some ⟨T, prediction_message T, status_text T failGlyph⟩) ∧
       lookupPred ((evaluateForVerification st t e).1).predictions T =
         some ⟨.failed, p.sourceGame, p.combination, p.verificationOffset⟩) := by
  constructor
  · intro st t e g T p hg hT h1 h2 hcount
    have heval : evaluateForVerification st t e = scanCands g t e st (candidateKeys st) := by
      simp [evaluateForVerification, hg]
    rw [heval]
    have hnt := scanCands_no_touch g t e T hcount (by omega) (candidateKeys st) st
    exact ⟨by rw [hnt.1]; exact hT, hnt.2⟩
  · intro st t e g T p hg hT hp h4 hmin
    have hpend := (isPending_iff p).mpr hp
    have hTmem := mem_candidateKeys_of_pending st T p hT hpend
    obtain ⟨ys, hys⟩ := sorted_head_of_min _ (candidateKeys_sorted st) T hTmem hmin
    have heval : evaluateForVerification st t e = scanCands g t e st (candidateKeys st) := by
      simp [evaluateForVerification, hg]
    have hscan : scanCands g t e st (T :: ys) =
        (resolveFailed st T, some ⟨T, prediction_message T, status_text T failGlyph⟩) := by
      unfold scanCands
      rw [if_pos (by omega : T ≤ g), if_neg (by omega : ¬ g - T ≤ 3)]
    have hmain : evaluateForVerification st t e =
        (resolveFailed st T, some ⟨T, prediction_message T, status_text T failGlyph⟩) := by
      rw [heval, hys, hscan]
    refine ⟨hmain, ?_⟩
    rw [hmain]
    rw [resolveFailed_lookup_self]
    have hgc : getCand st T = p := by unfold getCand; rw [hT]
    rw [hgc]

theorem evaluateForVerification_skip_and_fail_witness :
    (lookupPred ((evaluateForVerification
        ⟨[(103, ⟨.pending, 102, [], none⟩)], [], []⟩
        (['#', 'n', '1', '0', '5', ' ', Char.ofNat 0x2705, ' ', '('] ++
          spadeSym ++ spadeSym ++ [')'])
        true).1).predictions 103 = some ⟨.pending, 102, [], none⟩) ∧
    evaluateForVerification
        ⟨[(101, ⟨.pending, 100, [], none⟩)], [], []⟩
        (['#', 'n', '1', '0', '5', ' ', Char.ofNat 0x2705, ' ', '('] ++
          spadeSym ++ spadeSym ++ [')'])
        true =
      (resolveFailed ⟨[(101, ⟨.pending, 100, [], none⟩)], [], []⟩ 101,
       some ⟨101, prediction_message 101, status_text 101 failGlyph⟩) :=
  ⟨(evaluateForVerification_skip_and_fail.1
      ⟨[(103, ⟨.pending, 102, [], none⟩)], [], []⟩
      (['#', 'n', '1', '0', '5', ' ', Char.ofNat 0x2705, ' ', '('] ++
        spadeSym ++ spadeSym ++ [')'])
      true 105 103 ⟨.pending, 102, [], none⟩
      (by decide) (by decide) (by decide) (by decide) (by decide)).1,
   (evaluateForVerification_skip_and_fail.2
      ⟨[(101, ⟨.pending, 100, [], none⟩)], [], []⟩
      (['#', 'n', '1', '0', '5', ' ', Char.ofNat 0x2705, ' ', '('] ++
        spadeSym ++ spadeSym ++ [')'])
      true 105 101 ⟨.pending, 100, [], none⟩
      (by decide) (by decide) rfl (by decide) (by decide)).1⟩

/-! ## C8: heart-glyph normalization invariance -/

theorem nh_cons_atomic (c : Char) (rest : List Char)
    (h : c = heartAltCh → rest.head? ≠ some vs) :
    normalizeHearts (c :: rest) = c :: normalizeHearts rest := by
  cases rest with
  | nil => rfl
  | cons d r =>
    have hcond : (c == heartAltCh && d == vs) = false := by
      by_cases hc : c = heartAltCh
      · have hd : d ≠ vs := by
          intro hd
          exact h hc (by rw [List.head?_cons, hd])
        simp [hc, hd]
      · simp [hc]
    simp [normalizeHearts, hcond]

theorem nh_append (a b : List Char) (hb : b.head? ≠ some vs) :
    normalizeHearts (a ++ b) = normalizeHearts a ++ normalizeHearts b := by
  induction a using normalizeHearts.induct with
  | case1 => simp [normalizeHearts]
  | case2 c =>
    rw [List.singleton_append, nh_cons_atomic c b (fun _ => hb)]
    simp [normalizeHearts]
  | case3 c d rest h ih =>
    simp only [List.cons_append]
    rw [show normalizeHearts (c :: d :: (rest ++ b)) =
          heartCh :: vs :: normalizeHearts (rest ++ b) by simp [normalizeHearts, h]]
    rw [ih]
    simp [normalizeHearts, h]
  | case4 c d rest h ih =>
    simp only [List.cons_append]
    rw [show normalizeHearts (c :: d :: (rest ++ b)) =
          c :: normalizeHearts (d :: (rest ++ b)) by simp [normalizeHearts, h]]
    rw [show d :: (rest ++ b) = (d :: rest) ++ b by simp, ih]
    simp [normalizeHearts, h]

theorem nh_head (l : List Char) (h : l.head? ≠ some vs) :
    (normalizeHearts l).head? ≠ some vs := by
  match l with
  | [] => simp [normalizeHearts]
  | [c] =>
    rw [show normalizeHearts [c] = [c] from rfl]
    exact h
  | c :: d :: rest =>
    by_cases hp : (c == heartAltCh && d == vs) = true
    · rw [show normalizeHearts (c :: d :: rest) =
            heartCh :: vs :: normalizeHearts rest by simp [normalizeHearts, hp]]
      rw [List.head?_cons]
      intro habs
      exact absurd (Option.some_injective _ habs) (by decide)
    · rw [show normalizeHearts (c :: d :: rest) =
            c :: normalizeHearts (d :: rest) by simp [normalizeHearts, hp]]
      simpa using h

theorem nh_idem (l : List Char) :
    normalizeHearts (normalizeHearts l) = normalizeHearts l := by
  induction l using normalizeHearts.induct with
  | case1 => rfl
  | case2 c => rfl
  | case3 c d rest h ih =>
    rw [show normalizeHearts (c :: d :: rest) =
          heartCh :: vs :: normalizeHearts rest by simp [normalizeHearts, h]]
    rw [nh_cons_atomic heartCh _ (fun habs => absurd habs (by decide))]
    rw [nh_cons_atomic vs _ (fun habs => absurd habs (by decide))]
    rw [ih]
  | case4 c d rest h ih =>
    have h' : (c == heartAltCh && d == vs) = false := eq_false_of_ne_true h
    rw [show normalizeHearts (c :: d :: rest) =
          c :: normalizeHearts (d :: rest) by simp [normalizeHearts, h']]
    have hat : c = heartAltCh → (normalizeHearts (d :: rest)).head? ≠ some vs := by
      intro hc
      apply nh_head
      have hd : d ≠ vs := by
        intro hd
        rw [hc, hd] at h'
        simp at h'
      simpa using hd
    rw [nh_cons_atomic c _ hat, ih]

theorem nh_ne_nil (l : List Char) (h : l ≠ []) : normalizeHearts l ≠ [] := by
  match l with
  | [] => exact absurd rfl h
  | [c] => simp [normalizeHearts]
  | c :: d :: rest =>
    by_cases hp : (c == heartAltCh && d == vs) = true <;> simp [normalizeHearts, hp]

theorem scanPar_nh_aux : ∀ (n : Nat) (rem : List Char), rem.length ≤ n →
    (scanPar (normalizeHearts rem) none = (scanPar rem none).map normalizeHearts) ∧
    (∀ acc nacc, normalizeHearts (acc ++ rem) = nacc ++ normalizeHearts rem →
      scanPar (normalizeHearts rem) (some nacc) = (scanPar rem (some acc)).map normalizeHearts) := by
  intro n
  induction n with
  | zero =>
    intro rem hlen
    have hr : rem = [] := List.length_eq_zero.mp (Nat.le_zero.mp hlen)
    subst hr
    exact ⟨rfl, fun acc nacc _ => rfl⟩
  | succ n ih =>
    intro rem hlen
    cases rem with
    | nil => exact ⟨rfl, fun acc nacc _ => rfl⟩
    | cons c rest =>
      simp only [List.length_cons] at hlen
      by_cases hpair : c = heartAltCh ∧ rest.head? = some vs
      · obtain ⟨hc, hd⟩ := hpair
        cases rest with
        | nil => simp at hd
        | cons d rest2 =>
          have hdv : d = vs := by simpa using hd
          subst hc
          subst hdv
          have hnrem : normalizeHearts (heartAltCh :: vs :: rest2) =
              heartCh :: vs :: normalizeHearts rest2 := by
            simp [normalizeHearts]
          have hlen2 : rest2.length ≤ n := by
            simp only [List.length_cons] at hlen
            omega
          have ho1 : (heartCh == '(') = false := by decide
          have ho2 : ((vs : Char) == '(') = false := by decide
          have ho3 : (heartAltCh == '(') = false := by decide
          have hc1 : (heartCh == ')') = false := by decide
          have hc2 : ((vs : Char) == ')') = false := by decide
          have hc3 : (heartAltCh == ')') = false := by decide
          constructor
          · rw [hnrem]
            simp only [scanPar, ho1, ho2, ho3, Bool.false_eq_true, if_false]
            exact (ih rest2 hlen2).1
          · intro acc nacc hinv
            rw [hnrem] at hinv
            rw [hnrem]
            simp only [scanPar, hc1, hc2, hc3, Bool.false_eq_true, if_false]
            apply (ih rest2 hlen2).2
            rw [show (acc ++ [heartAltCh]) ++ [vs] ++ rest2 =
                  acc ++ (heartAltCh :: vs :: rest2) by simp, hinv]
            simp
      · have hat : c = heartAltCh → rest.head? ≠ some vs := fun hc hd => hpair ⟨hc, hd⟩
        have hnrem : normalizeHearts (c :: rest) = c :: normalizeHearts rest :=
          nh_cons_atomic c rest hat
        have hlen1 : rest.length ≤ n := by omega
        constructor
        · rw [hnrem]
          by_cases hc : c = '('
          · subst hc
            have h1 : (('(' : Char) == '(') = true := by decide
            simp only [scanPar, h1, if_true]
            apply (ih rest hlen1).2
            simp
          · have h1 : (c == '(') = false := by simp [hc]
            simp only [scanPar, h1, Bool.false_eq_true, if_false]
            exact (ih rest hlen1).1
        · intro acc nacc hinv
          rw [hnrem] at hinv
          rw [hnrem]
          by_cases hc : c = ')'
          · subst hc
            have hsplit : normalizeHearts (acc ++ ')' :: rest) =
                normalizeHearts acc ++ (')' :: normalizeHearts rest) := by
              rw [nh_append acc (')' :: rest) ?_, hnrem]
              rw [List.head?_cons]
              intro habs
              exact absurd (Option.some_injective _ habs) (by decide)
            have hacc : normalizeHearts acc = nacc := by
              have h5 : normalizeHearts acc ++ (')' :: normalizeHearts rest) =
                  nacc ++ (')' :: normalizeHearts rest) := by
                rw [← hsplit]
                exact hinv
              exact List.append_cancel_right h5
            have h1 : ((')' : Char) == ')') = true := by decide
            simp only [scanPar, h1, if_true]
            by_cases hae : acc = []
            · subst hae
              have hnacc : nacc = [] := by rw [← hacc]; rfl
              subst hnacc
              simpa using (ih rest hlen1).1
            · have h6 : acc.isEmpty = false := by
                cases acc with
                | nil => exact absurd rfl hae
                | cons x xs => rfl
              have h7 : nacc.isEmpty = false := by
                have hnn := nh_ne_nil acc hae
                rw [hacc] at hnn
                cases nacc with
                | nil => exact absurd rfl hnn
                | cons x xs => rfl
              rw [if_neg (by simp [h7]), if_neg (by simp [h6])]
              rw [List.map_cons, ← hacc, (ih rest hlen1).1]
          · have h1 : (c == ')') = false := by simp [hc]
            simp only [scanPar, h1, Bool.false_eq_true, if_false]
            apply (ih rest hlen1).2
            rw [show (acc ++ [c]) ++ rest = acc ++ (c :: rest) by simp, hinv]
            simp

theorem scanPar_nh (t : List Char) :
    scanPar (normalizeHearts t) none = (scanPar t none).map normalizeHearts :=
  (scanPar_nh_aux t.length t le_rfl).1

/-- Claim C8: the function `extract_card_symbols_from_parentheses` is invariant under replacing
every `❤️` by `♥️` (the heart normalization itself); in particular a section
containing only `❤️` yields the same `CardSection` as one containing only
`♥️`. -/
theorem extract_card_sections_heart_invariant :
    (∀ t, extract_card_symbols_from_parentheses (normalizeHearts t) =
       extract_card_symbols_from_parentheses t) ∧
    extract_card_symbols_from_parentheses ('(' :: heartAltSym ++ [')']) =
      extract_card_symbols_from_parentheses ('(' :: heartSym ++ [')']) := by
  constructor
  · intro t
    unfold extract_card_symbols_from_parentheses
    rw [scanPar_nh, List.map_map]
    apply List.map_congr_left
    intro x _
    show sectionSymbols (normalizeHearts x) = sectionSymbols x
    unfold sectionSymbols
    rw [nh_idem]
  · decide
